import Mathlib

/-!
Shallow embedding of the gridsplited dispatch core: the quarter-hour
dispatch engine (`src/dispatch_core.py`), the combined plant+battery
optimizer (`src/core/optimizer.py`), the battery strategies
(`src/core/battery.py`), the tolling price cap (`src/core/tolling.py`)
and the KPI calculator (`src/core/economics.py`).  Python floats are
modelled as rationals; numpy arrays and dataframe columns as lists.
-/

namespace GridSplit

/-- The 15-minute step length in hours (`step_h = 0.25` in the source). -/
def stepH : ℚ := 1/4

/-- Python's built-in `min` on two floats, modelled on rationals. -/
def rmin (x y : ℚ) : ℚ := if x ≤ y then x else y

/-- Python's built-in `max` on two floats, modelled on rationals. -/
def rmax (x y : ℚ) : ℚ := if x ≤ y then y else x

/-! ### dispatch_core.py -/

/-- `_apply_ramp(prev_mw, target_mw, ramp_limit)` from `dispatch_core.py`:
returns the target unchanged when no positive ramp limit is configured,
otherwise moves from `prev` towards `target` by at most `ramp_limit`. -/
def applyRamp (prev_mw target_mw : ℚ) (ramp_limit : Option ℚ) : ℚ :=
  match ramp_limit with
  | none => target_mw
  | some r =>
    if r ≤ 0 then target_mw
    else
      let delta := target_mw - prev_mw
      if delta > r then prev_mw + r
      else if delta < -r then prev_mw - r
      else target_mw

/-- The per-interval target of `_dispatch_series`: `max_mw` when the price
reaches `max(break_even, threshold)`, otherwise the baseline
(`min_mw` when `always_on`, else `0`). -/
def dispatchTarget (p min_mw max_mw break_even threshold : ℚ)
    (always_on : Bool) : ℚ :=
  let baseline : ℚ := if always_on then min_mw else 0
  let trigger := rmax break_even threshold
  if p ≥ trigger then max_mw else baseline

/-- One iteration of the ramp-enforcement loop in `_dispatch_series`
(lines 91–99): apply the ramp from the previous dispatch, cap at
`max_mw`, and floor at `min_mw` when `always_on` (else at `0`). -/
def rampStep (min_mw max_mw : ℚ) (always_on : Bool) (r prev target : ℚ) : ℚ :=
  let d := applyRamp prev target (some r)
  let d := rmin d max_mw
  if always_on then rmax d min_mw else rmax d 0

/-- The sequential ramp loop of `_dispatch_series`, threading the previous
dispatch value through the list of targets. -/
def rampFold (min_mw max_mw : ℚ) (always_on : Bool) (r : ℚ) :
    ℚ → List ℚ → List ℚ
  | _, [] => []
  | prev, t :: ts =>
    let d := rampStep min_mw max_mw always_on r prev t
    d :: rampFold min_mw max_mw always_on r d ts

/-- `_dispatch_series` from `dispatch_core.py`: compute the target series,
and when a positive ramp limit is configured set the first dispatch to the
first target and run the ramp loop from it; otherwise return the targets. -/
def dispatchSeries (prices : List ℚ) (min_mw max_mw break_even threshold : ℚ)
    (always_on : Bool) (ramp_limit : Option ℚ) : List ℚ :=
  let target := prices.map
    (fun p => dispatchTarget p min_mw max_mw break_even threshold always_on)
  match ramp_limit with
  | none => target
  | some r =>
    if r ≤ 0 then target
    else
      match target with
      | [] => []
      | t0 :: rest => t0 :: rampFold min_mw max_mw always_on r t0 rest

/-! ### Economics of `optimize_dispatch` (dispatch_core.py, lines 154–191) -/

/-- One per-interval row of the economics block of `optimize_dispatch`. -/
structure EconRow where
  energy_mwh : ℚ
  power_cost : ℚ
  tons : ℚ
  revenue : ℚ
  co2_cost : ℚ
  maint : ℚ
  sga : ℚ
  ins : ℚ
  true_profit : ℚ
  proxy_profit : ℚ

/-- The per-interval economics of `optimize_dispatch`: energy at the fixed
15-minute step, power cost, and — only when a positive `mwh_per_ton` is
given (Python truthiness plus `> 0`) — production, revenue, CO₂ cost and
the percent-of-revenue costs, with
`true_profit = revenue - power_cost - co2 - (maint + sga + ins)`.
Without a production model all production figures and `true_profit`
are zero; `proxy_profit = (price - break_even) * energy` always. -/
def econRow (mwh_per_ton : Option ℚ)
    (methanol_price co2_price co2_t maint_pct sga_pct ins_pct break_even : ℚ)
    (price dispatch_mw : ℚ) : EconRow :=
  let energy := dispatch_mw * stepH
  let power_cost := energy * price
  let proxy := (price - break_even) * energy
  match mwh_per_ton with
  | some m =>
    if 0 < m then
      let tons := energy / m
      let revenue := tons * methanol_price
      let co2 := tons * co2_t * co2_price
      let maint := revenue * maint_pct
      let sga := revenue * sga_pct
      let ins := revenue * ins_pct
      ⟨energy, power_cost, tons, revenue, co2, maint, sga, ins,
        revenue - power_cost - co2 - (maint + sga + ins), proxy⟩
    else ⟨energy, power_cost, 0, 0, 0, 0, 0, 0, 0, proxy⟩
  | none => ⟨energy, power_cost, 0, 0, 0, 0, 0, 0, 0, proxy⟩

/-- Total energy KPI of `optimize_dispatch`: `Σ dispatch_mw * 0.25`. -/
def totalEnergy (dispatch : List ℚ) : ℚ := (dispatch.map (· * stepH)).sum

/-- The energy-weighted average price KPI: `Σ(price·energy)/Σenergy` when
the total energy is positive, else NaN (modelled as `none`). -/
def weightedAvgPrice (prices dispatch : List ℚ) : Option ℚ :=
  let te := totalEnergy dispatch
  if 0 < te then
    some ((((prices.zip dispatch).map (fun pd => pd.1 * (pd.2 * stepH))).sum) / te)
  else none

/-! ### core/optimizer.py -/

/-- `np.clip(x, lo, hi)`. -/
def clip (x lo hi : ℚ) : ℚ := rmin (rmax x lo) hi

/-- The base target rule of `run_dispatch_with_battery` (lines 53–59):
`max_mw` when `price <= dispatch_threshold`, else `min_mw` when
`always_on` else `0`.  Note the convention is the reverse of
`_dispatch_series`. -/
def optTarget (threshold min_mw max_mw : ℚ) (always_on : Bool)
    (price : ℚ) : ℚ :=
  if price ≤ threshold then max_mw
  else if always_on then min_mw else 0

/-- One iteration of the ramp loop of `run_dispatch_with_battery`
(lines 64–71): clamp the target into `[prev - r, prev + r]` when a
positive ramp limit is configured, then into the plant bounds. -/
def optStep (min_mw max_mw : ℚ) (always_on : Bool) (ramp : Option ℚ)
    (prev mw : ℚ) : ℚ :=
  let mw := match ramp with
    | some r => if 0 < r then rmax (prev - r) (rmin (prev + r) mw) else mw
    | none => mw
  rmax (if always_on then min_mw else 0) (rmin mw max_mw)

/-- The sequential ramp loop of `run_dispatch_with_battery`. -/
def optDispatchAux (min_mw max_mw : ℚ) (always_on : Bool)
    (ramp : Option ℚ) : ℚ → List ℚ → List ℚ
  | _, [] => []
  | prev, t :: ts =>
    let d := optStep min_mw max_mw always_on ramp prev t
    d :: optDispatchAux min_mw max_mw always_on ramp d ts

/-- The plant dispatch of `run_dispatch_with_battery`: targets from
`optTarget`, then the ramp loop starting from
`prev = min_mw if always_on else 0`. -/
def optDispatch (prices : List ℚ) (min_mw max_mw threshold : ℚ)
    (always_on : Bool) (ramp : Option ℚ) : List ℚ :=
  optDispatchAux min_mw max_mw always_on ramp
    (if always_on then min_mw else 0)
    (prices.map (optTarget threshold min_mw max_mw always_on))

/-- One iteration of the battery loop of `run_dispatch_with_battery`
(lines 95–120); returns `(charge_mw, discharge_mw, next soc)`. -/
def optBatteryStep (p_max soc_min soc_max eff_chg eff_dis
    band_low band_high : ℚ) (soc price load : ℚ) : ℚ × ℚ × ℚ :=
  if band_high ≤ price ∧ 0 < load then
    let max_dis_by_power := rmin p_max load
    let max_dis_by_energy := rmax 0 (soc - soc_min) * eff_dis / stepH
    let d := rmax 0 (rmin max_dis_by_power max_dis_by_energy)
    (0, d, soc - d * stepH / eff_dis)
  else if price ≤ band_low then
    let max_chg_by_energy := rmax 0 (soc_max - soc) / (eff_chg * stepH)
    let c := rmax 0 (rmin p_max max_chg_by_energy)
    (c, 0, soc + c * stepH * eff_chg)
  else (0, 0, soc)

/-- The state-of-charge tail `soc[1..n]` produced by the battery loop,
one entry per `(price, plant load)` step. -/
def optSocList (p_max soc_min soc_max eff_chg eff_dis
    band_low band_high : ℚ) : ℚ → List (ℚ × ℚ) → List ℚ
  | _, [] => []
  | soc, step :: rest =>
    let s := (optBatteryStep p_max soc_min soc_max eff_chg eff_dis
      band_low band_high soc step.1 step.2).2.2
    s :: optSocList p_max soc_min soc_max eff_chg eff_dis
      band_low band_high s rest

/-- The full soc array `soc[0..n]` of `run_dispatch_with_battery`
(lines 78–120): bounds and the initial soc are derived from the
percentage inputs, the initial soc is clipped into the bounds. -/
def optBatterySoc (cap p_max soc_min_pct soc_max_pct soc_init_pct
    eff_chg eff_dis band_low band_high : ℚ)
    (steps : List (ℚ × ℚ)) : List ℚ :=
  let soc_min := cap * soc_min_pct / 100
  let soc_max := cap * soc_max_pct / 100
  let soc0 := clip (cap * soc_init_pct / 100) soc_min soc_max
  soc0 :: optSocList p_max soc_min soc_max eff_chg eff_dis
    band_low band_high soc0 steps

/-! ### core/battery.py -/

/-- The `1e-9` comparison tolerance used in `battery.py`. -/
def eps : ℚ := 1/1000000000

/-- `BatteryParams` from `core/battery.py`. -/
structure BatteryParams where
  enabled : Bool
  e_mwh : ℚ
  p_ch_mw : ℚ
  p_dis_mw : ℚ
  eff_ch : ℚ
  eff_dis : ℚ
  soc_min : ℚ
  soc_max : ℚ
  price_low : ℚ
  price_high : ℚ
  degradation_eur_per_mwh : ℚ
  prefer_self_supply : Bool
  dispatch_threshold : Option ℚ

/-- One step of the loop in `simulate_price_band` (lines 40–49): charge
when the price is below the low band, else discharge when above the high
band; apply both soc updates and clamp the stored energy into
`[soc_min * e_mwh, soc_max * e_mwh]`.  Returns `(ch, dis, clamped e)`. -/
def bandStep (bp : BatteryParams) (e price : ℚ) : ℚ × ℚ × ℚ :=
  let ch := if price ≤ bp.price_low - eps then
      rmin bp.p_ch_mw ((bp.soc_max * bp.e_mwh - e) / stepH) else 0
  let dis := if ¬(price ≤ bp.price_low - eps) ∧ bp.price_high + eps ≤ price
    then rmin bp.p_dis_mw ((e - bp.soc_min * bp.e_mwh) / stepH) else 0
  let e1 := e + ch * bp.eff_ch * stepH - dis / bp.eff_dis * stepH
  (ch, dis, rmin (rmax e1 (bp.soc_min * bp.e_mwh)) (bp.soc_max * bp.e_mwh))

/-- One per-interval record of `simulate_price_band`: the charge and
discharge power, the stored energy after the step (MWh, already clamped)
and the recorded soc fraction `e / e_mwh`. -/
structure BandRecord where
  charge_mw : ℚ
  discharge_mw : ℚ
  e_after : ℚ
  soc : ℚ

/-- The loop of `simulate_price_band`, threading the stored energy. -/
def bandRunAux (bp : BatteryParams) : ℚ → List ℚ → List BandRecord
  | _, [] => []
  | e, p :: ps =>
    let s := bandStep bp e p
    ⟨s.1, s.2.1, s.2.2, s.2.2 / bp.e_mwh⟩ :: bandRunAux bp s.2.2 ps

/-- The result shape of `simulate_price_band`: the per-interval schedule
plus the `battery_enabled` and `battery_profit_eur` KPIs. -/
structure BandResult where
  records : List BandRecord
  battery_enabled : Bool
  battery_profit_eur : ℚ

/-- `simulate_price_band` from `core/battery.py`: when the battery is not
enabled, an empty schedule with `battery_enabled = False` and zero profit;
otherwise the band loop starting from `e = 0.5 * e_mwh`, with
`profit = revenue - cost - degradation`. -/
def simulate_price_band (prices : List ℚ) (bp : BatteryParams) :
    BandResult :=
  if bp.enabled then
    let recs := bandRunAux bp (bp.e_mwh / 2) prices
    let energy_ch := (recs.map (fun r => r.charge_mw * stepH)).sum
    let energy_dis := (recs.map (fun r => r.discharge_mw * stepH)).sum
    let cost := ((recs.zip prices).map
      (fun rp => rp.1.charge_mw * stepH * rp.2)).sum
    let revenue := ((recs.zip prices).map
      (fun rp => rp.1.discharge_mw * stepH * rp.2)).sum
    let degr := bp.degradation_eur_per_mwh * (energy_ch + energy_dis)
    ⟨recs, true, revenue - cost - degr⟩
  else ⟨[], false, 0⟩

/-- The minimum of a list of rationals (`0` for the empty list),
modelling `np.nanmin` over an array known to be NaN-free. -/
def listMin : List ℚ → ℚ
  | [] => 0
  | [x] => x
  | x :: y :: xs => rmin x (listMin (y :: xs))

/-- The inferred per-step minimum load of `simulate_hybrid_self_supply`
(lines 121–127): the smallest strictly positive plant dispatch, or `0`
when the plant never runs. -/
def inferredMinMw (mw_plant : List ℚ) : ℚ :=
  listMin (mw_plant.filter (fun x => 0 < x))

/-- One per-interval record of `simulate_hybrid_self_supply`. -/
structure HybridRecord where
  charge_mw : ℚ
  dis_to_plant_mw : ℚ
  dis_to_grid_mw : ℚ
  soc : ℚ
  grid_import_mw : ℚ

/-- One iteration of the loop in `simulate_hybrid_self_supply`
(lines 141–175): self-supply first, then arbitrage discharge, then
charging, each with its own soc clamp.  Returns the record and the
stored energy after the step. -/
def hybridStep (bp : BatteryParams) (threshold min_mw_t : ℚ)
    (e price mw_plant : ℚ) : HybridRecord × ℚ :=
  let lo := bp.soc_min * bp.e_mwh
  let hi := bp.soc_max * bp.e_mwh
  let ssRes :=
    if bp.prefer_self_supply ∧ price < threshold - eps ∧ 0 < mw_plant then
      let target_ss := rmin min_mw_t mw_plant
      let max_dis := rmin bp.p_dis_mw ((e - lo) / stepH)
      let ss := rmax 0 (rmin target_ss max_dis)
      if 0 < ss then
        (ss, rmax 0 (mw_plant - ss), rmax (e - ss / bp.eff_dis * stepH) lo)
      else (0, mw_plant, e)
    else (0, mw_plant, e)
  let ss := ssRes.1
  let grid := ssRes.2.1
  let e1 := ssRes.2.2
  let max_dis_now := rmin (bp.p_dis_mw - ss) ((e1 - lo) / stepH)
  let dgRes :=
    if bp.price_high + eps ≤ price ∧ 0 < max_dis_now then
      (max_dis_now, rmax (e1 - max_dis_now / bp.eff_dis * stepH) lo)
    else (0, e1)
  let dg := dgRes.1
  let e2 := dgRes.2
  let max_ch := rmin bp.p_ch_mw ((hi - e2) / stepH)
  let chRes :=
    if price ≤ bp.price_low - eps ∧ 0 < max_ch then
      (max_ch, rmin (e2 + max_ch * bp.eff_ch * stepH) hi)
    else (0, e2)
  (⟨chRes.1, ss, dg, chRes.2 / bp.e_mwh, grid⟩, chRes.2)

/-- The loop of `simulate_hybrid_self_supply` over aligned price and
plant-dispatch lists. -/
def hybridRunAux (bp : BatteryParams) (threshold min_mw_t : ℚ) :
    ℚ → List (ℚ × ℚ) → List HybridRecord
  | _, [] => []
  | e, s :: rest =>
    let r := hybridStep bp threshold min_mw_t e s.1 s.2
    r.1 :: hybridRunAux bp threshold min_mw_t r.2 rest

/-- The result shape of `simulate_hybrid_self_supply`: the schedule plus
the `battery_enabled`, `battery_profit_eur` and
`battery_grid_cost_savings_eur` KPIs. -/
structure HybridResult where
  records : List HybridRecord
  battery_enabled : Bool
  battery_profit_eur : ℚ
  battery_grid_cost_savings_eur : ℚ

/-- `simulate_hybrid_self_supply` from `core/battery.py`, over a price
series already merged with the plant dispatch: when the battery is not
enabled, an empty schedule with `battery_enabled = False` and zero
profit and savings; otherwise the hybrid loop from `e = 0.5 * e_mwh`
with the threshold defaulting to `price_low` and the per-step minimum
load inferred from the plant dispatch. -/
def simulate_hybrid_self_supply (prices mw_plant : List ℚ)
    (bp : BatteryParams) : HybridResult :=
  if bp.enabled then
    let threshold := bp.dispatch_threshold.getD bp.price_low
    let min_mw_t := inferredMinMw mw_plant
    let recs := hybridRunAux bp threshold min_mw_t (bp.e_mwh / 2)
      (prices.zip mw_plant)
    let energy_ch := (recs.map (fun r => r.charge_mw * stepH)).sum
    let energy_dg := (recs.map (fun r => r.dis_to_grid_mw * stepH)).sum
    let energy_dp := (recs.map (fun r => r.dis_to_plant_mw * stepH)).sum
    let cost := ((recs.zip prices).map
      (fun rp => rp.1.charge_mw * stepH * rp.2)).sum
    let revenue := ((recs.zip prices).map
      (fun rp => rp.1.dis_to_grid_mw * stepH * rp.2)).sum
    let savings := ((recs.zip prices).map
      (fun rp => rp.1.dis_to_plant_mw * stepH * rp.2)).sum
    let degr := bp.degradation_eur_per_mwh * (energy_ch + energy_dg + energy_dp)
    ⟨recs, true, revenue - cost - degr + savings, savings⟩
  else ⟨[], false, 0, 0⟩

/-! ### core/tolling.py -/

/-- `price_cap_tolling` from `core/tolling.py`: the target margin arrives
in percent and is divided by 100, the three opex inputs are fractions and
are summed as-is, and the cap is floored at 0. -/
def price_cap_tolling (target_margin_pct variable_fee maint_pct sga_pct
    ins_pct other_var_cost : ℚ) : ℚ :=
  let p := target_margin_pct / 100
  let o := maint_pct + sga_pct + ins_pct
  rmax 0 (variable_fee * (1 - p - o) - other_var_cost)

/-! ### core/economics.py -/

/-- The KPI totals computed by `compute_kpis`. -/
structure KpiSummary where
  total_mwh : ℚ
  total_energy_cost : ℚ
  tons_meoh : ℚ
  revenue : ℚ
  co2_cost : ℚ
  pct_cost : ℚ
  var_costs : ℚ
  ebitda : ℚ
  ebitda_per_ton : Option ℚ
  avg_energy_cost : Option ℚ

/-- `compute_kpis` from `core/economics.py`, over rows of
`(price, mwh)` pairs (the column detection is the excluded plumbing).
An empty input raises `ValueError` in the source; a non-positive
`mwh_per_ton` likewise.  Both are modelled as `Except.error`. -/
def compute_kpis (rows : List (ℚ × ℚ)) (mwh_per_ton meoh_price co2_price
    co2_t maint_pct sga_pct ins_pct water_cost other_opex : ℚ) :
    Except String KpiSummary :=
  if rows.length = 0 then
    Except.error "compute_kpis: dispatch_df is empty."
  else
    let total_mwh := (rows.map (fun r => r.2)).sum
    let total_energy_cost := (rows.map (fun r => r.1 * r.2)).sum
    if mwh_per_ton ≤ 0 then
      Except.error "compute_kpis: mwh_per_ton must be > 0."
    else
      let tons := total_mwh / mwh_per_ton
      let revenue := tons * meoh_price
      let co2_cost := tons * co2_t * co2_price
      let pct_cost := revenue * ((maint_pct + sga_pct + ins_pct) / 100)
      let var_costs := tons * (water_cost + other_opex)
      let ebitda := revenue - total_energy_cost - co2_cost - pct_cost - var_costs
      Except.ok ⟨total_mwh, total_energy_cost, tons, revenue, co2_cost,
        pct_cost, var_costs, ebitda,
        if 0 < tons then some (ebitda / tons) else none,
        if 0 < total_mwh then some (total_energy_cost / total_mwh) else none⟩

/-! ## Helper lemmas -/

theorem rmin_le_left (x y : ℚ) : rmin x y ≤ x := by
  unfold rmin; split <;> linarith

theorem rmin_le_right (x y : ℚ) : rmin x y ≤ y := by
  unfold rmin; split <;> linarith

theorem le_rmin (z x y : ℚ) (hx : z ≤ x) (hy : z ≤ y) : z ≤ rmin x y := by
  unfold rmin; split <;> linarith

theorem left_le_rmax (x y : ℚ) : x ≤ rmax x y := by
  unfold rmax; split <;> linarith

theorem right_le_rmax (x y : ℚ) : y ≤ rmax x y := by
  unfold rmax; split <;> linarith

theorem rmax_le (x y z : ℚ) (hx : x ≤ z) (hy : y ≤ z) : rmax x y ≤ z := by
  unfold rmax; split <;> linarith

theorem rmax_zero_nonneg (x : ℚ) : 0 ≤ rmax 0 x := left_le_rmax 0 x

theorem rmax_zero_eq (x : ℚ) (hx : 0 ≤ x) : rmax 0 x = x := by
  unfold rmax; simp [hx]

/-- Clamping toward an interval containing `p` cannot move a point
further away from `p` — the `min`-then-`max` shape of the
`_dispatch_series` ramp loop. -/
theorem clamp_dist (lo hi p x r : ℚ) (h1 : lo ≤ p) (h2 : p ≤ hi)
    (h3 : |x - p| ≤ r) : |rmax (rmin x hi) lo - p| ≤ r := by
  unfold rmin rmax
  rw [abs_le] at *
  split_ifs <;> constructor <;> linarith

/-- The `max`-then-`min` clamp shape of the `run_dispatch_with_battery`
ramp loop. -/
theorem clamp_dist_left (lo hi p x r : ℚ) (h1 : lo ≤ p) (h2 : p ≤ hi)
    (h3 : |x - p| ≤ r) : |rmax lo (rmin x hi) - p| ≤ r := by
  unfold rmin rmax
  rw [abs_le] at *
  split_ifs <;> constructor <;> linarith

/-- `_apply_ramp` at a present ramp limit, with the match reduced. -/
theorem applyRamp_some (prev t r : ℚ) :
    applyRamp prev t (some r)
      = if r ≤ 0 then t
        else if t - prev > r then prev + r
        else if t - prev < -r then prev - r
        else t := rfl

/-- With a positive ramp limit, `_apply_ramp` keeps the result within
`r` of the previous value. -/
theorem applyRamp_dist (prev t r : ℚ) (hr : 0 < r) :
    |applyRamp prev t (some r) - prev| ≤ r := by
  rw [applyRamp_some, if_neg (by linarith), abs_le]
  split_ifs <;> constructor <;> linarith

/-- `rampStep` written as a single clamp against the effective floor. -/
theorem rampStep_eq (min_mw max_mw : ℚ) (ao : Bool) (r prev t : ℚ) :
    rampStep min_mw max_mw ao r prev t
      = rmax (rmin (applyRamp prev t (some r)) max_mw)
          (if ao then min_mw else 0) := by
  cases ao <;> rfl

/-- Every `rampStep` output lies in `[floor, max_mw]`, where the floor
is `min_mw` when `always_on` and `0` otherwise. -/
theorem rampStep_bounds (min_mw max_mw : ℚ) (ao : Bool) (r prev t : ℚ)
    (h0 : 0 ≤ min_mw) (h1 : min_mw ≤ max_mw) :
    (if ao then min_mw else 0) ≤ rampStep min_mw max_mw ao r prev t
    ∧ rampStep min_mw max_mw ao r prev t ≤ max_mw := by
  rw [rampStep_eq]
  refine ⟨right_le_rmax _ _, rmax_le _ _ _ (rmin_le_right _ _) ?_⟩
  cases ao <;> simp <;> linarith

/-- A `rampStep` output moves at most `r` away from a previous value
that lies in `[floor, max_mw]`. -/
theorem rampStep_dist (min_mw max_mw : ℚ) (ao : Bool) (r prev t : ℚ)
    (hr : 0 < r) (hlo : (if ao then min_mw else 0) ≤ prev)
    (hhi : prev ≤ max_mw) :
    |rampStep min_mw max_mw ao r prev t - prev| ≤ r := by
  rw [rampStep_eq]
  exact clamp_dist _ _ _ _ _ hlo hhi (applyRamp_dist prev t r hr)

/-- The dispatch target of `_dispatch_series` lies in `[floor, max_mw]`. -/
theorem dispatchTarget_bounds (p min_mw max_mw be thr : ℚ) (ao : Bool)
    (h0 : 0 ≤ min_mw) (h1 : min_mw ≤ max_mw) :
    (if ao then min_mw else 0) ≤ dispatchTarget p min_mw max_mw be thr ao
    ∧ dispatchTarget p min_mw max_mw be thr ao ≤ max_mw := by
  unfold dispatchTarget
  cases ao <;> simp only [Bool.false_eq_true, if_true, if_false] <;>
    split_ifs <;> constructor <;> linarith

/-- All elements of the ramp loop output lie in `[floor, max_mw]`. -/
theorem rampFold_bounds (min_mw max_mw : ℚ) (ao : Bool) (r : ℚ)
    (h0 : 0 ≤ min_mw) (h1 : min_mw ≤ max_mw) (prev : ℚ) (ts : List ℚ) :
    ∀ d ∈ rampFold min_mw max_mw ao r prev ts,
      (if ao then min_mw else 0) ≤ d ∧ d ≤ max_mw := by
  induction ts generalizing prev with
  | nil => intro d hd; simp [rampFold] at hd
  | cons t ts ih =>
    intro d hd
    rw [rampFold] at hd
    rcases List.mem_cons.mp hd with h | h
    · subst h; exact rampStep_bounds min_mw max_mw ao r prev t h0 h1
    · exact ih _ d h

/-- The consecutive ramp bound for the loop output, starting from any
previous value inside `[floor, max_mw]`. -/
theorem rampFold_chain (min_mw max_mw : ℚ) (ao : Bool) (r : ℚ)
    (h0 : 0 ≤ min_mw) (h1 : min_mw ≤ max_mw) (hr : 0 < r)
    (prev : ℚ) (ts : List ℚ)
    (hlo : (if ao then min_mw else 0) ≤ prev) (hhi : prev ≤ max_mw) :
    List.Chain' (fun a b => |b - a| ≤ r)
      (prev :: rampFold min_mw max_mw ao r prev ts) := by
  induction ts generalizing prev with
  | nil => simp [rampFold]
  | cons t ts ih =>
    rw [rampFold, List.chain'_cons]
    refine ⟨rampStep_dist min_mw max_mw ao r prev t hr hlo hhi, ?_⟩
    have hb := rampStep_bounds min_mw max_mw ao r prev t h0 h1
    exact ih _ hb.1 hb.2

/-- Every `optStep` output lies in `[floor, max_mw]`. -/
theorem optStep_bounds (min_mw max_mw : ℚ) (ao : Bool) (ramp : Option ℚ)
    (prev t : ℚ) (h0 : 0 ≤ min_mw) (h1 : min_mw ≤ max_mw) :
    (if ao then min_mw else 0) ≤ optStep min_mw max_mw ao ramp prev t
    ∧ optStep min_mw max_mw ao ramp prev t ≤ max_mw := by
  unfold optStep
  refine ⟨left_le_rmax _ _, rmax_le _ _ _ ?_ (rmin_le_right _ _)⟩
  cases ao <;> simp <;> linarith

/-- An `optStep` output with a positive ramp limit moves at most `r`
away from a previous value inside `[floor, max_mw]`. -/
theorem optStep_dist (min_mw max_mw : ℚ) (ao : Bool) (r prev t : ℚ)
    (hr : 0 < r) (hlo : (if ao then min_mw else 0) ≤ prev)
    (hhi : prev ≤ max_mw) :
    |optStep min_mw max_mw ao (some r) prev t - prev| ≤ r := by
  have hred : optStep min_mw max_mw ao (some r) prev t
      = rmax (if ao then min_mw else 0)
          (rmin (if 0 < r then rmax (prev - r) (rmin (prev + r) t) else t)
            max_mw) := rfl
  rw [hred, if_pos hr]
  refine clamp_dist_left _ _ _ _ _ hlo hhi ?_
  rw [abs_le]
  constructor
  · have := left_le_rmax (prev - r) (rmin (prev + r) t)
    linarith
  · have h2 := rmin_le_left (prev + r) t
    have := rmax_le (prev - r) (rmin (prev + r) t) (prev + r)
      (by linarith) h2
    linarith

/-- All elements of the `run_dispatch_with_battery` ramp loop lie in
`[floor, max_mw]`. -/
theorem optDispatchAux_bounds (min_mw max_mw : ℚ) (ao : Bool)
    (ramp : Option ℚ) (h0 : 0 ≤ min_mw) (h1 : min_mw ≤ max_mw)
    (prev : ℚ) (ts : List ℚ) :
    ∀ d ∈ optDispatchAux min_mw max_mw ao ramp prev ts,
      (if ao then min_mw else 0) ≤ d ∧ d ≤ max_mw := by
  induction ts generalizing prev with
  | nil => intro d hd; simp [optDispatchAux] at hd
  | cons t ts ih =>
    intro d hd
    rw [optDispatchAux] at hd
    rcases List.mem_cons.mp hd with h | h
    · subst h; exact optStep_bounds min_mw max_mw ao ramp prev t h0 h1
    · exact ih _ d h

/-- The consecutive ramp bound for the `run_dispatch_with_battery` loop
output, including the step from the initial `prev`. -/
theorem optDispatchAux_chain (min_mw max_mw : ℚ) (ao : Bool) (r : ℚ)
    (h0 : 0 ≤ min_mw) (h1 : min_mw ≤ max_mw) (hr : 0 < r)
    (prev : ℚ) (ts : List ℚ)
    (hlo : (if ao then min_mw else 0) ≤ prev) (hhi : prev ≤ max_mw) :
    List.Chain' (fun a b => |b - a| ≤ r)
      (prev :: optDispatchAux min_mw max_mw ao (some r) prev ts) := by
  induction ts generalizing prev with
  | nil => simp [optDispatchAux]
  | cons t ts ih =>
    rw [optDispatchAux, List.chain'_cons]
    refine ⟨optStep_dist min_mw max_mw ao r prev t hr hlo hhi, ?_⟩
    have hb := optStep_bounds min_mw max_mw ao (some r) prev t h0 h1
    exact ih _ hb.1 hb.2

/-- The band loop emits one record per price. -/
theorem bandRunAux_length (bp : BatteryParams) (e : ℚ) (ps : List ℚ) :
    (bandRunAux bp e ps).length = ps.length := by
  induction ps generalizing e with
  | nil => rfl
  | cons p ps ih => rw [bandRunAux]; simp [ih]

/-- The hybrid loop emits one record per merged row. -/
theorem hybridRunAux_length (bp : BatteryParams) (thr mmt e : ℚ)
    (steps : List (ℚ × ℚ)) :
    (hybridRunAux bp thr mmt e steps).length = steps.length := by
  induction steps generalizing e with
  | nil => rfl
  | cons s steps ih => rw [hybridRunAux]; simp [ih]

/-- The battery step of `run_dispatch_with_battery` keeps the state of
charge inside `[soc_min, soc_max]`: the discharge is limited by the
energy above `soc_min`, the charge by the headroom below `soc_max`. -/
theorem optBatteryStep_soc_bounds (p_max soc_min soc_max eff_chg eff_dis
    bl bh soc price load : ℚ) (hdis : 0 < eff_dis) (hchg : 0 < eff_chg)
    (hlo : soc_min ≤ soc) (hhi : soc ≤ soc_max) :
    soc_min ≤ (optBatteryStep p_max soc_min soc_max eff_chg eff_dis
        bl bh soc price load).2.2
    ∧ (optBatteryStep p_max soc_min soc_max eff_chg eff_dis
        bl bh soc price load).2.2 ≤ soc_max := by
  have hstep : (0:ℚ) < stepH := by norm_num [stepH]
  unfold optBatteryStep
  split_ifs with h1 h2
  · -- discharge branch
    set B := rmax 0 (soc - soc_min) * eff_dis / stepH with hB
    set d := rmax 0 (rmin (rmin p_max load) B) with hd
    have hd0 : 0 ≤ d := rmax_zero_nonneg _
    have hBv : rmax 0 (soc - soc_min) = soc - soc_min :=
      rmax_zero_eq _ (by linarith)
    have hB0 : 0 ≤ B := by
      rw [hB, hBv]
      exact div_nonneg (mul_nonneg (by linarith) hdis.le) hstep.le
    have hdB : d ≤ B := rmax_le _ _ _ hB0 (rmin_le_right _ _)
    have hkey : d * stepH / eff_dis ≤ soc - soc_min := by
      rw [div_le_iff₀ hdis]
      have : d * stepH ≤ B * stepH :=
        mul_le_mul_of_nonneg_right hdB hstep.le
      have hBs : B * stepH = (soc - soc_min) * eff_dis := by
        rw [hB, hBv, div_mul_cancel₀]
        exact ne_of_gt hstep
      linarith [this, hBs ▸ this]
    have hpos : 0 ≤ d * stepH / eff_dis :=
      div_nonneg (mul_nonneg hd0 hstep.le) hdis.le
    constructor <;> simp only <;> linarith
  · -- charge branch
    set C := rmax 0 (soc_max - soc) / (eff_chg * stepH) with hC
    set c := rmax 0 (rmin p_max C) with hc
    have hc0 : 0 ≤ c := rmax_zero_nonneg _
    have hCv : rmax 0 (soc_max - soc) = soc_max - soc :=
      rmax_zero_eq _ (by linarith)
    have hC0 : 0 ≤ C := by
      rw [hC, hCv]
      exact div_nonneg (by linarith) (mul_nonneg hchg.le hstep.le)
    have hcC : c ≤ C := rmax_le _ _ _ hC0 (rmin_le_right _ _)
    have hkey : c * stepH * eff_chg ≤ soc_max - soc := by
      have hmul : (0:ℚ) < eff_chg * stepH := mul_pos hchg hstep
      have hcC2 : c ≤ (soc_max - soc) / (eff_chg * stepH) := by
        rw [hC, hCv] at hcC; exact hcC
      have := (le_div_iff₀ hmul).mp hcC2
      linarith [this]
    have hpos : 0 ≤ c * stepH * eff_chg :=
      mul_nonneg (mul_nonneg hc0 hstep.le) hchg.le
    constructor <;> simp only <;> linarith
  · -- hold branch
    exact ⟨hlo, hhi⟩

/-- Every entry of the soc tail produced by the battery loop stays in
`[soc_min, soc_max]`, starting from a state of charge in bounds. -/
theorem optSocList_bounds (p_max soc_min soc_max eff_chg eff_dis
    bl bh : ℚ) (hdis : 0 < eff_dis) (hchg : 0 < eff_chg)
    (soc : ℚ) (steps : List (ℚ × ℚ))
    (hlo : soc_min ≤ soc) (hhi : soc ≤ soc_max) :
    ∀ s ∈ optSocList p_max soc_min soc_max eff_chg eff_dis bl bh soc steps,
      soc_min ≤ s ∧ s ≤ soc_max := by
  induction steps generalizing soc with
  | nil => intro s hs; simp [optSocList] at hs
  | cons st steps ih =>
    intro s hs
    rw [optSocList] at hs
    have hb := optBatteryStep_soc_bounds p_max soc_min soc_max eff_chg
      eff_dis bl bh soc st.1 st.2 hdis hchg hlo hhi
    rcases List.mem_cons.mp hs with h | h
    · subst h; exact hb
    · exact ih _ hb.1 hb.2 s h

/-- `np.clip` lands inside the interval when the bounds are ordered. -/
theorem clip_bounds (x lo hi : ℚ) (h : lo ≤ hi) :
    lo ≤ clip x lo hi ∧ clip x lo hi ≤ hi := by
  unfold clip
  exact ⟨le_rmin _ _ _ (right_le_rmax _ _) h, rmin_le_right _ _⟩

/-- The clamped stored energy after a band step lies in
`[soc_min * e_mwh, soc_max * e_mwh]`. -/
theorem bandStep_e_bounds (bp : BatteryParams) (e p : ℚ)
    (h : bp.soc_min * bp.e_mwh ≤ bp.soc_max * bp.e_mwh) :
    bp.soc_min * bp.e_mwh ≤ (bandStep bp e p).2.2
    ∧ (bandStep bp e p).2.2 ≤ bp.soc_max * bp.e_mwh := by
  unfold bandStep
  exact ⟨le_rmin _ _ _ (right_le_rmax _ _) h, rmin_le_right _ _⟩

/-- Every record of the band loop carries a stored energy inside
`[soc_min * e_mwh, soc_max * e_mwh]`. -/
theorem bandRunAux_e_bounds (bp : BatteryParams) (e : ℚ) (ps : List ℚ)
    (h : bp.soc_min * bp.e_mwh ≤ bp.soc_max * bp.e_mwh) :
    ∀ rec ∈ bandRunAux bp e ps,
      bp.soc_min * bp.e_mwh ≤ rec.e_after
      ∧ rec.e_after ≤ bp.soc_max * bp.e_mwh := by
  induction ps generalizing e with
  | nil => intro rec hr; simp [bandRunAux] at hr
  | cons p ps ih =>
    intro rec hr
    rw [bandRunAux] at hr
    rcases List.mem_cons.mp hr with hh | hh
    · subst hh; exact bandStep_e_bounds bp e p h
    · exact ih _ rec hh

/-- In a band step, at most one of charge and discharge is set: the two
branches of the `if`/`elif` are mutually exclusive. -/
theorem bandStep_exclusive (bp : BatteryParams) (e p : ℚ) :
    (bandStep bp e p).1 = 0 ∨ (bandStep bp e p).2.1 = 0 := by
  unfold bandStep
  by_cases h : p ≤ bp.price_low - eps
  · right; simp [h]
  · left; simp [h]

/-- All records of the band loop have at most one of charge and
discharge nonzero. -/
theorem bandRunAux_exclusive (bp : BatteryParams) (e : ℚ) (ps : List ℚ) :
    ∀ rec ∈ bandRunAux bp e ps,
      rec.charge_mw = 0 ∨ rec.discharge_mw = 0 := by
  induction ps generalizing e with
  | nil => intro rec hr; simp [bandRunAux] at hr
  | cons p ps ih =>
    intro rec hr
    rw [bandRunAux] at hr
    rcases List.mem_cons.mp hr with hh | hh
    · subst hh; exact bandStep_exclusive bp e p
    · exact ih _ rec hh

/-- `_dispatch_series` without a ramp limit returns the raw targets. -/
theorem dispatchSeries_none (prices : List ℚ) (min_mw max_mw be thr : ℚ)
    (ao : Bool) :
    dispatchSeries prices min_mw max_mw be thr ao none
      = prices.map (fun p => dispatchTarget p min_mw max_mw be thr ao) := rfl

/-- `_dispatch_series` at a present ramp limit, with the match reduced. -/
theorem dispatchSeries_some_eq (prices : List ℚ) (min_mw max_mw be thr : ℚ)
    (ao : Bool) (r : ℚ) :
    dispatchSeries prices min_mw max_mw be thr ao (some r)
      = if r ≤ 0 then
          prices.map (fun p => dispatchTarget p min_mw max_mw be thr ao)
        else
          match prices.map
              (fun p => dispatchTarget p min_mw max_mw be thr ao) with
          | [] => []
          | t0 :: rest => t0 :: rampFold min_mw max_mw ao r t0 rest := rfl

/-- `_dispatch_series` on the empty series is empty. -/
theorem dispatchSeries_nil (min_mw max_mw be thr : ℚ) (ao : Bool)
    (ramp : Option ℚ) :
    dispatchSeries [] min_mw max_mw be thr ao ramp = [] := by
  cases ramp with
  | none => rfl
  | some r => rw [dispatchSeries_some_eq]; split_ifs <;> rfl

/-- With a positive ramp limit, `_dispatch_series` on a nonempty series
is the unramped first target followed by the ramp loop. -/
theorem dispatchSeries_cons_pos (p : ℚ) (ps : List ℚ)
    (min_mw max_mw be thr : ℚ) (ao : Bool) (r : ℚ) (hr : ¬ r ≤ 0) :
    dispatchSeries (p :: ps) min_mw max_mw be thr ao (some r)
      = dispatchTarget p min_mw max_mw be thr ao
        :: rampFold min_mw max_mw ao r
          (dispatchTarget p min_mw max_mw be thr ao)
          (ps.map (fun q => dispatchTarget q min_mw max_mw be thr ao)) := by
  rw [dispatchSeries_some_eq, if_neg hr, List.map_cons]

/-- A disabled battery short-circuits `simulate_price_band`. -/
theorem simulate_price_band_disabled (prices : List ℚ) (bp : BatteryParams)
    (he : bp.enabled = false) :
    simulate_price_band prices bp = ⟨[], false, 0⟩ := by
  simp [simulate_price_band, he]

/-- With the battery enabled, the schedule of `simulate_price_band` is
the band loop started at half capacity. -/
theorem simulate_price_band_records (prices : List ℚ) (bp : BatteryParams)
    (he : bp.enabled = true) :
    (simulate_price_band prices bp).records
      = bandRunAux bp (bp.e_mwh / 2) prices := by
  unfold simulate_price_band; rw [if_pos he]

/-! ## Claim theorems -/

/-- C1 (counterexample): with `break_even = 100 > threshold = 50` and
`price = 60`, the price reaches the threshold yet `_dispatch_series`
targets the baseline `0`, not `pmax = 20`: the run trigger is
`max(break_even, threshold)`, not the threshold alone. -/
theorem c1_threshold_counterexample :
    (50:ℚ) ≤ 60 ∧ dispatchTarget 60 2 20 100 50 false = 0
    ∧ (0:ℚ) ≠ 20 := by
  refine ⟨by norm_num, ?_, by norm_num⟩
  norm_num [dispatchTarget, rmax]

/-- C1 (amended): in `_dispatch_series` the per-interval target is
`pmax` exactly when the price reaches `max(break_even, threshold)` —
the tie at the trigger runs at max — and the baseline
(`pmin` when `always_on`, else `0`) otherwise; `run_dispatch_with_battery`
uses the opposite convention, targeting `pmax` when
`price <= threshold`. -/
theorem c1_dispatch_target_rule (p min_mw max_mw be thr : ℚ) (ao : Bool) :
    (rmax be thr ≤ p → dispatchTarget p min_mw max_mw be thr ao = max_mw)
    ∧ (p < rmax be thr →
        dispatchTarget p min_mw max_mw be thr ao
          = if ao then min_mw else 0)
    ∧ dispatchTarget (rmax be thr) min_mw max_mw be thr ao = max_mw
    ∧ (p ≤ thr → optTarget thr min_mw max_mw ao p = max_mw)
    ∧ (thr < p → optTarget thr min_mw max_mw ao p
        = if ao then min_mw else 0) := by
  refine ⟨?_, ?_, ?_, ?_, ?_⟩
  · intro h; unfold dispatchTarget; rw [if_pos h]
  · intro h; unfold dispatchTarget; rw [if_neg (not_le.mpr h)]
  · unfold dispatchTarget; rw [if_pos (le_refl _)]
  · intro h; unfold optTarget; rw [if_pos h]
  · intro h; unfold optTarget; rw [if_neg (not_le.mpr h)]

/-- C1 (witness): at `break_even = 0 ≤ threshold = 50` and
`price = 60 ≥ 50` the target is `pmax = 20`. -/
theorem c1_dispatch_target_rule_witness :
    dispatchTarget 60 2 20 0 50 false = 20 :=
  (c1_dispatch_target_rule 60 2 20 0 50 false).1 (by norm_num [rmax])

/-- C2 (counterexample): with no production model (`mwh_per_ton = None`)
but a running plant (`price = 60`, `dispatch = 20 MW`),
`optimize_dispatch` sets `true_profit = 0`, while
`revenue - power_cost - co2_cost - opex_misc = -300`: the
decomposition identity fails when the production model is absent. -/
theorem c2_true_profit_counterexample :
    (econRow none 0 0 0 0 0 0 0 60 20).true_profit = 0
    ∧ (econRow none 0 0 0 0 0 0 0 60 20).revenue
      - (econRow none 0 0 0 0 0 0 0 60 20).power_cost
      - (econRow none 0 0 0 0 0 0 0 60 20).co2_cost
      - ((econRow none 0 0 0 0 0 0 0 60 20).maint
        + (econRow none 0 0 0 0 0 0 0 60 20).sga
        + (econRow none 0 0 0 0 0 0 0 60 20).ins) = -300
    ∧ (0:ℚ) ≠ -300 := by
  refine ⟨rfl, ?_, by norm_num⟩
  norm_num [econRow, stepH]

/-- C2 (amended): `true_profit[i] = revenue[i] - power_cost[i] -
co2_cost[i] - opex_misc[i]` holds exactly, per interval, whenever a
positive `mwh_per_output_unit` is configured; when the production model
is absent, `optimize_dispatch` instead reports `true_profit = 0`
(alongside zero revenue, CO₂ cost and opex). -/
theorem c2_true_profit_decomposition (mwh : Option ℚ)
    (mp cp c2 ma sg ins be price dmw : ℚ) :
    ((∃ m, mwh = some m ∧ 0 < m) →
      (econRow mwh mp cp c2 ma sg ins be price dmw).true_profit
        = (econRow mwh mp cp c2 ma sg ins be price dmw).revenue
          - (econRow mwh mp cp c2 ma sg ins be price dmw).power_cost
          - (econRow mwh mp cp c2 ma sg ins be price dmw).co2_cost
          - ((econRow mwh mp cp c2 ma sg ins be price dmw).maint
            + (econRow mwh mp cp c2 ma sg ins be price dmw).sga
            + (econRow mwh mp cp c2 ma sg ins be price dmw).ins))
    ∧ (¬(∃ m, mwh = some m ∧ 0 < m) →
      (econRow mwh mp cp c2 ma sg ins be price dmw).true_profit = 0
      ∧ (econRow mwh mp cp c2 ma sg ins be price dmw).revenue = 0
      ∧ (econRow mwh mp cp c2 ma sg ins be price dmw).co2_cost = 0
      ∧ (econRow mwh mp cp c2 ma sg ins be price dmw).maint
        + (econRow mwh mp cp c2 ma sg ins be price dmw).sga
        + (econRow mwh mp cp c2 ma sg ins be price dmw).ins = 0) := by
  cases mwh with
  | none =>
    refine ⟨?_, ?_⟩
    · rintro ⟨m, hm, -⟩; exact absurd hm (by simp)
    · intro _; refine ⟨rfl, rfl, rfl, ?_⟩; norm_num [econRow]
  | some m =>
    by_cases hm : 0 < m
    · refine ⟨?_, ?_⟩
      · intro _; simp only [econRow, if_pos hm]
      · intro hn; exact absurd ⟨m, rfl, hm⟩ hn
    · refine ⟨?_, ?_⟩
      · rintro ⟨m2, hm2, hm2pos⟩
        cases Option.some.inj hm2; exact absurd hm2pos hm
      · intro _
        refine ⟨?_, ?_, ?_, ?_⟩ <;> first
          | (simp only [econRow, if_neg hm]; norm_num)
          | simp only [econRow, if_neg hm]

/-- C2 (witness): with `mwh_per_ton = 5`, `methanol_price = 100`,
`price = 60`, `dispatch = 20 MW`, the identity holds. -/
theorem c2_true_profit_decomposition_witness :
    (econRow (some 5) 100 0 0 0 0 0 0 60 20).true_profit
      = (econRow (some 5) 100 0 0 0 0 0 0 60 20).revenue
        - (econRow (some 5) 100 0 0 0 0 0 0 60 20).power_cost
        - (econRow (some 5) 100 0 0 0 0 0 0 60 20).co2_cost
        - ((econRow (some 5) 100 0 0 0 0 0 0 60 20).maint
          + (econRow (some 5) 100 0 0 0 0 0 0 60 20).sga
          + (econRow (some 5) 100 0 0 0 0 0 0 60 20).ins) :=
  (c2_true_profit_decomposition (some 5) 100 0 0 0 0 0 0 60 20).1
    ⟨5, rfl, by norm_num⟩

/-- C3 (counterexample): with `pmin = 2`, `always_on = False`,
`threshold = 50` and a price `40 < 50`, `_dispatch_series` dispatches
`0`, below the claimed floor `pmin_effective = pmin = 2`: with
`always_on = False` the floor is `0` even below the threshold. -/
theorem c3_bounds_counterexample :
    (40:ℚ) < 50 ∧ dispatchSeries [40] 2 20 0 50 false none = [0]
    ∧ ¬ ((2:ℚ) ≤ 0) := by
  refine ⟨by norm_num, ?_, by norm_num⟩
  norm_num [dispatchSeries, dispatchTarget, rmax]

/-- C3 (amended): every dispatched value of `_dispatch_series` and of
`run_dispatch_with_battery` lies in `[pmin_effective, pmax]` where
`pmin_effective = pmin` when `always_on` and `0` otherwise,
independently of the price. -/
theorem c3_dispatch_bounds (prices : List ℚ) (min_mw max_mw be thr : ℚ)
    (ao : Bool) (ramp : Option ℚ)
    (h0 : 0 ≤ min_mw) (h1 : min_mw ≤ max_mw) :
    (∀ d ∈ dispatchSeries prices min_mw max_mw be thr ao ramp,
      (if ao then min_mw else 0) ≤ d ∧ d ≤ max_mw)
    ∧ (∀ d ∈ optDispatch prices min_mw max_mw thr ao ramp,
      (if ao then min_mw else 0) ≤ d ∧ d ≤ max_mw) := by
  constructor
  · intro d hd
    have htb : ∀ q ∈ prices.map
        (fun p => dispatchTarget p min_mw max_mw be thr ao),
        (if ao then min_mw else 0) ≤ q ∧ q ≤ max_mw := by
      intro q hq
      rcases List.mem_map.mp hq with ⟨p, -, hp⟩
      exact hp ▸ dispatchTarget_bounds p min_mw max_mw be thr ao h0 h1
    cases ramp with
    | none => rw [dispatchSeries_none] at hd; exact htb d hd
    | some r =>
      by_cases hr : r ≤ 0
      · rw [dispatchSeries_some_eq, if_pos hr] at hd; exact htb d hd
      · cases prices with
        | nil => rw [dispatchSeries_nil] at hd; simp at hd
        | cons p ps =>
          rw [dispatchSeries_cons_pos p ps min_mw max_mw be thr ao r hr]
            at hd
          rcases List.mem_cons.mp hd with hh | hh
          · subst hh
            exact dispatchTarget_bounds p min_mw max_mw be thr ao h0 h1
          · exact rampFold_bounds min_mw max_mw ao r h0 h1 _ _ d hh
  · intro d hd
    exact optDispatchAux_bounds min_mw max_mw ao ramp h0 h1 _ _ d hd

/-- C3 (witness): with `pmin = 2`, `pmax = 20`, `always_on = True`,
price `60 ≥ 50`, the single dispatched value `20` is within bounds. -/
theorem c3_dispatch_bounds_witness :
    (2:ℚ) ≤ 20 ∧ (20:ℚ) ≤ 20 :=
  (c3_dispatch_bounds [60] 2 20 0 50 true none (by norm_num)
    (by norm_num)).1 20 (by norm_num [dispatchSeries_none, dispatchTarget, rmax])

/-- C4 (counterexample): with `always_on = False`, `ramp = 2` and a first
price above the threshold, `_dispatch_series` jumps straight to `20 MW`
in the first interval: the first output is the raw target, not
ramp-limited from the initial level `0`. -/
theorem c4_first_interval_counterexample :
    dispatchSeries [60] 0 20 0 50 false (some 2) = [20]
    ∧ ¬ (|(20:ℚ) - 0| ≤ 2) := by
  constructor
  · rw [dispatchSeries_cons_pos 60 [] 0 20 0 50 false 2 (by norm_num)]
    norm_num [dispatchTarget, rmax, rampFold]
  · have h : |(20:ℚ) - 0| = 20 := by
      rw [abs_of_nonneg] <;> norm_num
    rw [h]; norm_num

/-- C4 (amended): with a configured ramp limit `r > 0`, consecutive
outputs of `_dispatch_series` differ by at most `r`; its first output
equals the first interval's raw target (not ramp-limited from the
initial level).  In `run_dispatch_with_battery` the ramp bound
additionally covers the step from the initial level
(`pmin` if `always_on` else `0`) to the first output. -/
theorem c4_ramp_respect (prices : List ℚ) (min_mw max_mw be thr r : ℚ)
    (ao : Bool) (h0 : 0 ≤ min_mw) (h1 : min_mw ≤ max_mw) (hr : 0 < r) :
    List.Chain' (fun a b => |b - a| ≤ r)
      (dispatchSeries prices min_mw max_mw be thr ao (some r))
    ∧ (dispatchSeries prices min_mw max_mw be thr ao (some r)).head?
      = prices.head?.map
        (fun p => dispatchTarget p min_mw max_mw be thr ao)
    ∧ List.Chain' (fun a b => |b - a| ≤ r)
      ((if ao then min_mw else 0)
        :: optDispatch prices min_mw max_mw thr ao (some r)) := by
  have hr' : ¬ r ≤ 0 := not_le.mpr hr
  have hfloor : (if ao then min_mw else 0) ≤ max_mw := by
    cases ao <;> simp <;> linarith
  refine ⟨?_, ?_, ?_⟩
  · cases prices with
    | nil => rw [dispatchSeries_nil]; exact List.chain'_nil
    | cons p ps =>
      rw [dispatchSeries_cons_pos p ps min_mw max_mw be thr ao r hr']
      have hb := dispatchTarget_bounds p min_mw max_mw be thr ao h0 h1
      exact rampFold_chain min_mw max_mw ao r h0 h1 hr _ _ hb.1 hb.2
  · cases prices with
    | nil => rw [dispatchSeries_nil]; rfl
    | cons p ps =>
      rw [dispatchSeries_cons_pos p ps min_mw max_mw be thr ao r hr']; rfl
  · unfold optDispatch
    exact optDispatchAux_chain min_mw max_mw ao r h0 h1 hr _ _
      (le_refl _) hfloor

/-- C4 (witness): the ramp chain at
`prices = [40, 60], pmin = 0, pmax = 20, r = 2, always_on = False`. -/
theorem c4_ramp_respect_witness :
    List.Chain' (fun a b => |b - a| ≤ (2:ℚ))
      (dispatchSeries [40, 60] 0 20 0 50 false (some 2)) :=
  (c4_ramp_respect [40, 60] 0 20 0 50 2 false (by norm_num) (by norm_num)
    (by norm_num)).1

/-- C5: Scenario C — `capacity = 20, min = 0 %, max = 100 %,
ramp = 2 MW/step, always_on = False, threshold = 50,
prices = [40, 60, 60, 60]` dispatches `[0, 2, 4, 6]`, for any
break-even not exceeding the threshold. -/
theorem c5_scenario_c (be : ℚ) (hbe : be ≤ 50) :
    dispatchSeries [40, 60, 60, 60] 0 20 be 50 false (some 2)
      = [0, 2, 4, 6] := by
  rw [dispatchSeries_cons_pos 40 [60, 60, 60] 0 20 be 50 false 2
    (by norm_num)]
  norm_num [dispatchTarget, rampFold, rampStep, applyRamp_some,
    rmin, rmax, hbe]

/-- C5 (witness): the scenario at `break_even = 0`. -/
theorem c5_scenario_c_witness :
    (0:ℚ) ≤ 50
    ∧ dispatchSeries [40, 60, 60, 60] 0 20 0 50 false (some 2)
      = [0, 2, 4, 6] :=
  ⟨by norm_num, c5_scenario_c 0 (by norm_num)⟩

/-- C6: in `run_dispatch_with_battery` the state of charge starts at the
`soc_init_pct`-derived value clipped into `[soc_min, soc_max]` and every
entry of the soc array stays inside those bounds; in
`simulate_price_band` every recorded stored energy likewise stays inside
`[soc_min * e_mwh, soc_max * e_mwh]`. -/
theorem c6_soc_bounds
    (cap p_max smin_pct smax_pct sinit_pct eff_chg eff_dis bl bh : ℚ)
    (steps : List (ℚ × ℚ)) (prices : List ℚ) (bp : BatteryParams)
    (hmm : cap * smin_pct / 100 ≤ cap * smax_pct / 100)
    (hdis : 0 < eff_dis) (hchg : 0 < eff_chg)
    (hbp : bp.soc_min * bp.e_mwh ≤ bp.soc_max * bp.e_mwh) :
    (optBatterySoc cap p_max smin_pct smax_pct sinit_pct eff_chg eff_dis
        bl bh steps).head?
      = some (clip (cap * sinit_pct / 100) (cap * smin_pct / 100)
          (cap * smax_pct / 100))
    ∧ (∀ s ∈ optBatterySoc cap p_max smin_pct smax_pct sinit_pct eff_chg
          eff_dis bl bh steps,
        cap * smin_pct / 100 ≤ s ∧ s ≤ cap * smax_pct / 100)
    ∧ (∀ rec ∈ (simulate_price_band prices bp).records,
        bp.soc_min * bp.e_mwh ≤ rec.e_after
        ∧ rec.e_after ≤ bp.soc_max * bp.e_mwh) := by
  have hc := clip_bounds (cap * sinit_pct / 100) (cap * smin_pct / 100)
    (cap * smax_pct / 100) hmm
  refine ⟨rfl, ?_, ?_⟩
  · intro s hs
    simp only [optBatterySoc] at hs
    rcases List.mem_cons.mp hs with h | h
    · subst h; exact hc
    · exact optSocList_bounds _ _ _ _ _ _ _ hdis hchg _ _ hc.1 hc.2 s h
  · intro rec hr
    by_cases he : bp.enabled = true
    · rw [simulate_price_band_records prices bp he] at hr
      exact bandRunAux_e_bounds bp _ prices hbp rec hr
    · rw [simulate_price_band_disabled prices bp
        (Bool.not_eq_true _ ▸ he)] at hr
      simp at hr

/-- C6 (witness): a one-step run at
`cap = 10, soc bounds 10 %–90 %, init 50 %, eff = 0.95`. -/
theorem c6_soc_bounds_witness :
    (10:ℚ) * 10 / 100 ≤ 10 * 90 / 100
    ∧ ((optBatterySoc 10 5 10 90 50 (19/20) (19/20) 30 90
          [(20, 5)]).head?
        = some (clip (10 * 50 / 100) (10 * 10 / 100) (10 * 90 / 100))
      ∧ (∀ s ∈ optBatterySoc 10 5 10 90 50 (19/20) (19/20) 30 90
            [(20, 5)], (10:ℚ) * 10 / 100 ≤ s ∧ s ≤ 10 * 90 / 100)
      ∧ (∀ rec ∈ (simulate_price_band [20]
            ⟨true, 10, 5, 5, 1, 1, 0, 1, 30, 90, 0, true, none⟩).records,
          (0:ℚ) * 10 ≤ rec.e_after ∧ rec.e_after ≤ 1 * 10)) :=
  ⟨by norm_num,
    c6_soc_bounds 10 5 10 90 50 (19/20) (19/20) 30 90 [(20, 5)] [20]
      ⟨true, 10, 5, 5, 1, 1, 0, 1, 30, 90, 0, true, none⟩
      (by norm_num) (by norm_num) (by norm_num) (by norm_num)⟩

/-- C7: on the empty price series `_dispatch_series` returns the empty
schedule and the aggregate KPIs are zero (with a NaN-safe undefined
weighted average price), but `compute_kpis` raises
`ValueError("compute_kpis: dispatch_df is empty.")` instead of
returning zeroed KPIs. -/
theorem c7_empty_series (mwh mp cp c2 ma sg ins w oo : ℚ)
    (min_mw max_mw be thr : ℚ) (ao : Bool) (ramp : Option ℚ) :
    dispatchSeries [] min_mw max_mw be thr ao ramp = []
    ∧ totalEnergy [] = 0
    ∧ weightedAvgPrice [] [] = none
    ∧ compute_kpis [] mwh mp cp c2 ma sg ins w oo
      = Except.error "compute_kpis: dispatch_df is empty." := by
  refine ⟨dispatchSeries_nil min_mw max_mw be thr ao ramp, rfl, ?_, rfl⟩
  norm_num [weightedAvgPrice, totalEnergy]

/-- C8 (counterexample): a zero-capacity battery with the `enabled` flag
set is not treated as disabled: `simulate_price_band` still reports
`battery_enabled = True` and emits one record per interval (the source
would in fact divide by zero computing the soc fraction). -/
theorem c8_capacity_counterexample :
    ((⟨true, 0, 5, 5, 1, 1, 0, 1, 30, 90, 0, true, none⟩ :
        BatteryParams).e_mwh ≤ 0)
    ∧ (simulate_price_band [50]
        ⟨true, 0, 5, 5, 1, 1, 0, 1, 30, 90, 0, true, none⟩).battery_enabled
      = true
    ∧ (simulate_price_band [50]
        ⟨true, 0, 5, 5, 1, 1, 0, 1, 30, 90, 0, true, none⟩).records.length
      = 1 := by
  refine ⟨by norm_num, by simp [simulate_price_band], ?_⟩
  rw [simulate_price_band_records _ _ rfl, bandRunAux_length]
  rfl

/-- C8 (amended): the battery engines return the empty schedule with
`battery_enabled = False` and zero profit exactly when the `enabled`
flag is off; the energy capacity is never validated, and with the flag
on the engines emit one record per interval regardless of capacity. -/
theorem c8_battery_disabled_guard (prices mw_plant : List ℚ)
    (bp : BatteryParams) :
    (bp.enabled = false →
      simulate_price_band prices bp = ⟨[], false, 0⟩
      ∧ simulate_hybrid_self_supply prices mw_plant bp = ⟨[], false, 0, 0⟩)
    ∧ (bp.enabled = true →
      (simulate_price_band prices bp).battery_enabled = true
      ∧ (simulate_price_band prices bp).records.length = prices.length
      ∧ (simulate_hybrid_self_supply prices mw_plant bp).battery_enabled
        = true) := by
  constructor
  · intro h
    exact ⟨simulate_price_band_disabled prices bp h,
      by simp [simulate_hybrid_self_supply, h]⟩
  · intro h
    refine ⟨by simp [simulate_price_band, h], ?_,
      by simp [simulate_hybrid_self_supply, h]⟩
    rw [simulate_price_band_records prices bp h, bandRunAux_length]

/-- C8 (witness): a disabled battery yields the empty disabled result. -/
theorem c8_battery_disabled_guard_witness :
    simulate_price_band [50]
        ⟨false, 10, 5, 5, 1, 1, 0, 1, 30, 90, 0, true, none⟩
      = ⟨[], false, 0⟩ :=
  ((c8_battery_disabled_guard [50] [0]
    ⟨false, 10, 5, 5, 1, 1, 0, 1, 30, 90, 0, true, none⟩).1 rfl).1

/-- C9: the tolling price cap equals
`max(0, variable_fee * (1 - margin_fraction - opex_fraction) -
other_variable_cost)`, where the margin fraction is the percent input
divided by 100 and the opex fraction is the sum of the maintenance,
SG&A and insurance fractions; in particular it is never negative. -/
theorem c9_tolling_price_cap (m fee ma sg ins o : ℚ) :
    price_cap_tolling m fee ma sg ins o
      = rmax 0 (fee * (1 - m / 100 - (ma + sg + ins)) - o)
    ∧ 0 ≤ price_cap_tolling m fee ma sg ins o :=
  ⟨rfl, left_le_rmax 0 _⟩

/-- C10: in the price-band strategy at most one of charge and discharge
is nonzero in any interval, and likewise for the battery step of
`run_dispatch_with_battery`. -/
theorem c10_no_simultaneous (bp : BatteryParams) (prices : List ℚ)
    (pm smin smax ec ed bl bh soc price load : ℚ) :
    (∀ rec ∈ (simulate_price_band prices bp).records,
      rec.charge_mw = 0 ∨ rec.discharge_mw = 0)
    ∧ ((optBatteryStep pm smin smax ec ed bl bh soc price load).1 = 0
      ∨ (optBatteryStep pm smin smax ec ed bl bh soc price load).2.1
        = 0) := by
  constructor
  · intro rec hr
    by_cases he : bp.enabled = true
    · rw [simulate_price_band_records prices bp he] at hr
      exact bandRunAux_exclusive bp _ prices rec hr
    · rw [simulate_price_band_disabled prices bp
        (Bool.not_eq_true _ ▸ he)] at hr
      simp at hr
  · unfold optBatteryStep
    split_ifs <;> simp

/-- C10 (witness): the charging record of a one-interval cheap-price run
has zero discharge. -/
theorem c10_no_simultaneous_witness :
    (⟨5, 0, 25/4, 5/8⟩ : BandRecord).charge_mw = 0
    ∨ (⟨5, 0, 25/4, 5/8⟩ : BandRecord).discharge_mw = 0 :=
  (c10_no_simultaneous ⟨true, 10, 5, 5, 1, 1, 0, 1, 30, 90, 0, true, none⟩
    [20] 0 0 0 0 0 0 0 0 0 0).1 ⟨5, 0, 25/4, 5/8⟩ (by
      rw [simulate_price_band_records _ _ rfl]
      norm_num [bandRunAux, bandStep, eps, stepH, rmin, rmax])

end GridSplit
